import Mathlib

/-!
Verification development for the wildcard word-search service.

The definitions below are a shallow embedding of the Python sources:
`index.py` (Bloom-like filters, `WordIndex` with its length buckets and
position/character index, the four search operations) and the request
pipeline shared by `server_threaded.py` / `server_basic.py` (option
parsing, complexity guard, COUNT/FIND/FIND_MULTI dispatch, pagination,
gzip framing).

Modelling conventions:
* Python strings are Lean `String`s; `str.lower()` is the per-character
  ASCII lowering `lowerC` (the spec's scope is ASCII-safe semantics).
* Python's builtin `hash` is an opaque parameter `pyhash : String → Int`;
  every definition that consults the Bloom filters is parameterised by it.
* Python sets are modelled by their membership predicates: the
  `pos_char_index` sets are only ever used for membership tests inside
  `_exact_indices_via_pos_index`, and the deduplicating `set(...)` loops
  feeding the Bloom filters are order/duplicate-insensitive because
  `add` only ORs bits, so folding over the non-deduplicated list yields
  the same bit set.
* A compiled regex `^body$` with `?→.`, `*→.*`, all other characters
  escaped, matched with `re.IGNORECASE` and `fullmatch`, is the wildcard
  matcher `wildMatch` applied to the lowered pattern and word, where `?`
  matches one non-newline character and `*` a run of non-newline
  characters (`.` does not match a newline in Python).  The unanchored
  `.*body.*` used with `search` succeeds exactly when some contiguous
  substring matches the body, which is `wildSub`.
* `gzip.compress`/`base64.b64encode` (and their inverses) are library
  code outside the repository; the composite encoder is an abstract
  parameter `enc`, and round-trip facts take the library's
  decode-inverts-encode property as a hypothesis.
* Python dicts preserve insertion order; `len_to_indices` is therefore
  an association list built in first-occurrence order (`bucketInsert`),
  which is exactly what `for L, idxs in self.len_to_indices.items()`
  iterates over.
-/

namespace WordServer

/-- ASCII lowercase of one character, the per-character model of Python's
`str.lower()` on the ASCII range. -/
def lowerC (c : Char) : Char :=
  match c with
  | 'A' => 'a' | 'B' => 'b' | 'C' => 'c' | 'D' => 'd' | 'E' => 'e' | 'F' => 'f'
  | 'G' => 'g' | 'H' => 'h' | 'I' => 'i' | 'J' => 'j' | 'K' => 'k' | 'L' => 'l'
  | 'M' => 'm' | 'N' => 'n' | 'O' => 'o' | 'P' => 'p' | 'Q' => 'q' | 'R' => 'r'
  | 'S' => 's' | 'T' => 't' | 'U' => 'u' | 'V' => 'v' | 'W' => 'w' | 'X' => 'x'
  | 'Y' => 'y' | 'Z' => 'z'
  | other => other

/-- Model of Python `s.lower()`. -/
def lowerS (s : String) : String := String.mk (s.data.map lowerC)

/-- Python `str.strip()` / `str.split()` whitespace set. -/
def isPyWs (c : Char) : Bool :=
  c == ' ' || c == '\t' || c == '\n' || c == '\r' || c == '\x0b' || c == '\x0c'

/-- ASCII decimal digit test, the model of `str.isdigit()` on ASCII input. -/
def isDigitC (c : Char) : Bool := '0' ≤ c && c ≤ '9'

/-- Decimal value of a digit string, the model of `int(tok)` for digit tokens. -/
def parseNat (l : List Char) : Nat := l.foldl (fun a c => a * 10 + (c.toNat - 48)) 0

/-- Model of Python `s.strip()` on a character list. -/
def trimWsL (l : List Char) : List Char :=
  ((l.dropWhile isPyWs).reverse.dropWhile isPyWs).reverse

/-- Model of Python `s.strip()`. -/
def trimWs (s : String) : String := String.mk (trimWsL s.data)

/-- Helper for `splitWs`: accumulates the current (reversed) token. -/
def splitWsAux : List Char → List Char → List (List Char)
  | [], cur => if cur.isEmpty then [] else [cur.reverse]
  | c :: cs, cur =>
    if isPyWs c then
      if cur.isEmpty then splitWsAux cs [] else cur.reverse :: splitWsAux cs []
    else splitWsAux cs (c :: cur)

/-- Model of Python `s.split()` (split on runs of whitespace, no empty parts). -/
def splitWs (l : List Char) : List (List Char) := splitWsAux l []

/-- Whether `sep` occurs in `l` starting at offset `i`. -/
def subAt (sep l : List Char) (i : Nat) : Bool := sep.isPrefixOf (l.drop i)

/-- Model of Python's `sep in s` substring test. -/
def containsSub (sep l : List Char) : Bool :=
  (List.range (l.length + 1)).any (subAt sep l)

/-- Start offset of the rightmost occurrence of `sep` in `l`. -/
def rsplitPos (sep l : List Char) : Option Nat :=
  ((List.range (l.length + 1)).reverse).find? (subAt sep l)

/-- Model of Python `s.rsplit(sep, 1)` (two parts; callers guard on
`containsSub` first, mirroring the `if sep in rest` guards in the source). -/
def rsplit1 (sep l : List Char) : List Char × List Char :=
  match rsplitPos sep l with
  | some i => (l.take i, l.drop (i + sep.length))
  | none => (l, [])

/-- 64-bit mask, Python's `(1 << 64) - 1`. -/
def mask64 : Nat := 0xffffffffffffffff

/-- `_SimpleBloom._h1` from index.py. -/
def bloomH1 (x : Nat) : Nat :=
  let y := x ^^^ (x >>> 33)
  (y * 0xff51afd7ed558ccd) &&& mask64

/-- `_SimpleBloom._h2` from index.py. -/
def bloomH2 (x : Nat) : Nat :=
  let y := x ^^^ (x >>> 29)
  (y * 0xc4ceb9fe1a85ec53) &&& mask64

/-- `_SimpleBloom._hashes`: three bit positions below the mask.  Python's
`hash(s)` is the opaque parameter `pyhash`; the `if h < 0: h = -h` step is
`Int.natAbs`. -/
def bloomHashes (mask : Nat) (pyhash : String → Int) (s : String) : List Nat :=
  let h := (pyhash s).natAbs
  let a := bloomH1 h &&& mask
  let b := bloomH2 h &&& mask
  [a, b, (a * 1315423911 + b * 2654435761) &&& mask]

/-- `_SimpleBloom.add`: OR a bit for each of the three hash positions. -/
def bloomAdd (mask : Nat) (pyhash : String → Int) (bits : Nat) (s : String) : Nat :=
  (bloomHashes mask pyhash s).foldl (fun b h => b ||| (1 <<< h)) bits

/-- `_SimpleBloom.maybe_contains`: false only when some hash bit is unset. -/
def bloomMaybe (mask : Nat) (pyhash : String → Int) (bits : Nat) (s : String) : Bool :=
  (bloomHashes mask pyhash s).all (fun h => (bits >>> h) &&& 1 == 1)

/-- One step of the wildcard matcher: try to match pattern `p` against a word
whose first character is `c`, where `rest q` matches `q` against the word's
tail.  Literal characters compare for equality (the regex escapes them), `?`
is `.` (any non-newline character), `*` is `.*`. -/
def wmStep (c : Char) (rest : List Char → Bool) : List Char → Bool
  | [] => false
  | '?' :: ps => decide (c ≠ '\n') && rest ps
  | '*' :: ps => wmStep c rest ps || (decide (c ≠ '\n') && rest ('*' :: ps))
  | a :: ps => (a == c) && rest ps

/-- Anchored wildcard match of pattern against word (both already lowered):
the semantics of `re.fullmatch` on `^body$` built by
`_wildcard_to_regex_body(pattern, allow_star=True, partial=False)`. -/
def wildMatch : List Char → List Char → Bool
  | p, [] => p.all (fun c => c == '*')
  | p, c :: cs => wmStep c (fun q => wildMatch q cs) p

/-- Case-insensitive anchored wildcard match on strings: model of compiling
the escaped pattern with `re.IGNORECASE` and running `fullmatch` on the word. -/
def wildFull (p w : String) : Bool :=
  wildMatch (lowerS p).data (lowerS w).data

/-- Case-insensitive substring wildcard match: model of `search` on the
unanchored `.*body.*` regex — some contiguous substring matches the body. -/
def wildSub (p w : String) : Bool :=
  ((lowerS w).data.tails).any (fun t => t.inits.any (fun s => wildMatch (lowerS p).data s))

/-- Helper for `_letter_segments`: accumulates the current literal run. -/
def letterSegmentsAux : List Char → List Char → List (List Char)
  | [], cur => if cur.isEmpty then [] else [cur.reverse]
  | c :: cs, cur =>
    if c == '?' || c == '*' then
      if cur.isEmpty then letterSegmentsAux cs [] else cur.reverse :: letterSegmentsAux cs []
    else letterSegmentsAux cs (c :: cur)

/-- `_letter_segments` from index.py: maximal literal runs of the pattern. -/
def letterSegments (l : List Char) : List (List Char) := letterSegmentsAux l []

/-- Adjacent bigrams of a word, `wl[i : i + 2]` for each `i`. -/
def bigramsOf (l : List Char) : List (List Char) :=
  (l.zip l.tail).map (fun p => [p.1, p.2])

/-- Bits of the global `_bloom_letters` filter (mask `2^16 - 1`) after
`_init_blooms`: every character of every lowered word is added.  The source
adds `set(wl)`; adding duplicates ORs the same bits, so the resulting bit set
is identical. -/
def lettersBloomBits (pyhash : String → Int) (wordsLower : List String) : Nat :=
  wordsLower.foldl
    (fun b w => w.data.foldl (fun b2 c => bloomAdd 65535 pyhash b2 (String.singleton c)) b) 0

/-- Bits of the global `_bloom_bigrams` filter (mask `2^18 - 1`) after
`_init_blooms`: every adjacent bigram of every lowered word is added. -/
def bigramsBloomBits (pyhash : String → Int) (wordsLower : List String) : Nat :=
  wordsLower.foldl
    (fun b w => (bigramsOf w.data).foldl (fun b2 g => bloomAdd 262143 pyhash b2 (String.mk g)) b) 0

/-- Wildcard characters of the pattern alphabet. -/
def isWild (c : Char) : Bool := c == '?' || c == '*'

/-- `should_skip_pattern` from index.py, with the global Bloom filters built
from the given corpus (as `_init_blooms(self.words_lower)` does). -/
def shouldSkipPattern (pyhash : String → Int) (ws : List String) (pattern : String) : Bool :=
  if pattern = "" then true
  else
    let p := lowerS pattern
    if !(p.data.any (fun c => !isWild c)) then false
    else
      let lb := lettersBloomBits pyhash (ws.map lowerS)
      let bb := bigramsBloomBits pyhash (ws.map lowerS)
      if (p.data.filter (fun c => !isWild c)).any
          (fun c => !bloomMaybe 65535 pyhash lb (String.singleton c)) then true
      else if (letterSegments p.data).any
          (fun g => (bigramsOf g).any (fun bg => !bloomMaybe 262143 pyhash bb (String.mk bg))) then true
      else false

/-- Python `enumerate` starting at `n`. -/
def enumFromN : Nat → List α → List (Nat × α)
  | _, [] => []
  | n, a :: as => (n, a) :: enumFromN (n + 1) as

/-- `self.len_to_indices.setdefault(L, []).append(i)`: insertion-ordered
association list; a new length key is appended at the end, matching dict
insertion order. -/
def bucketInsert : List (Nat × List Nat) → Nat → Nat → List (Nat × List Nat)
  | [], L, i => [(L, [i])]
  | (K, is) :: rest, L, i =>
    if K = L then (K, is ++ [i]) :: rest else (K, is) :: bucketInsert rest L i

/-- Fold of `bucketInsert` over an enumerated word list. -/
def lenToIndicesAux : List (Nat × List Nat) → List (Nat × String) → List (Nat × List Nat)
  | bs, [] => bs
  | bs, iw :: rest => lenToIndicesAux (bucketInsert bs iw.2.length iw.1) rest

/-- `self.len_to_indices` built by `_build_indexes` (keyed by the length of
the lowered word, in first-occurrence order of lengths). -/
def lenToIndices (ws : List String) : List (Nat × List Nat) :=
  lenToIndicesAux [] (enumFromN 0 (ws.map lowerS))

/-- `self.len_to_indices.get(L)` with the `if not idxs` guard folded in. -/
def bucketGet (bs : List (Nat × List Nat)) (L : Nat) : List Nat :=
  match bs.find? (fun e => e.1 == L) with
  | some e => e.2
  | none => []

/-- `fixed_positions = [(i, c) for i, c in enumerate(pat) if c != '?']`. -/
def fixedPositions (pat : List Char) : List (Nat × Char) :=
  (enumFromN 0 pat).filter (fun pc => pc.2 != '?')

/-- `WordIndex._exact_indices_via_pos_index`.  Membership of `i` in the
intersection of the `pos_char_index[L][pos][ch]` sets is, by the index
invariant, exactly: the lowered word `i` has character `ch` at position
`pos`; the final list comprehension filters the ordered bucket by it. -/
def exactIndicesViaPosIndex (ws : List String) (pattern : String) : List Nat :=
  let idxs := bucketGet (lenToIndices ws) pattern.length
  if idxs.isEmpty then []
  else
    let fixed := fixedPositions (lowerS pattern).data
    if fixed.isEmpty then idxs
    else
      idxs.filter (fun i =>
        fixed.all (fun pc => (lowerS (ws.getD i "")).data.getD pc.1 ' ' == pc.2))

/-- `min_len = sum(1 for ch in pattern if ch != '*')`. -/
def minLenOf (pattern : String) : Nat := (pattern.data.filter (fun c => c != '*')).length

/-- `WordIndex.find_exact`. -/
def findExact (pyhash : String → Int) (ws : List String) (pattern : String) : List String :=
  if shouldSkipPattern pyhash ws pattern then []
  else if !(pattern.data.contains '*') then
    (exactIndicesViaPosIndex ws pattern).map (fun i => ws.getD i "")
  else
    (lenToIndices ws).foldl (fun acc e =>
      if e.1 < minLenOf pattern then acc
      else acc ++ (e.2.filter (fun i => wildFull pattern (ws.getD i ""))).map (fun i => ws.getD i "")) []

/-- `WordIndex.count_exact`. -/
def countExact (pyhash : String → Int) (ws : List String) (pattern : String) : Nat :=
  if shouldSkipPattern pyhash ws pattern then 0
  else if !(pattern.data.contains '*') then
    (exactIndicesViaPosIndex ws pattern).length
  else
    (lenToIndices ws).foldl (fun cnt e =>
      if e.1 < minLenOf pattern then cnt
      else cnt + (e.2.filter (fun i => wildFull pattern (ws.getD i ""))).length) 0

/-- `all(ch == '?' for ch in pattern)`. -/
def allQ (pattern : String) : Bool := pattern.data.all (fun c => c == '?')

/-- `WordIndex.find_partial` (named `findPart` here). -/
def findPart (pyhash : String → Int) (ws : List String) (pattern : String) : List String :=
  if shouldSkipPattern pyhash ws pattern then []
  else if !(pattern.data.contains '*') then
    if allQ pattern then ws.filter (fun w => pattern.length ≤ w.length)
    else
      (lenToIndices ws).foldl (fun acc e =>
        if e.1 < pattern.length then acc
        else acc ++ (e.2.filter (fun i => wildSub pattern (ws.getD i ""))).map (fun i => ws.getD i "")) []
  else
    (lenToIndices ws).foldl (fun acc e =>
      if e.1 < minLenOf pattern then acc
      else acc ++ (e.2.filter (fun i => wildSub pattern (ws.getD i ""))).map (fun i => ws.getD i "")) []

/-- `WordIndex.count_partial` (named `countPart` here). -/
def countPart (pyhash : String → Int) (ws : List String) (pattern : String) : Nat :=
  if shouldSkipPattern pyhash ws pattern then 0
  else if !(pattern.data.contains '*') then
    if allQ pattern then
      (((lenToIndices ws).filter (fun e => pattern.length ≤ e.1)).map (fun e => e.2.length)).sum
    else
      (lenToIndices ws).foldl (fun cnt e =>
        if e.1 < pattern.length then cnt
        else cnt + (e.2.filter (fun i => wildSub pattern (ws.getD i ""))).length) 0
  else
    (lenToIndices ws).foldl (fun cnt e =>
      if e.1 < minLenOf pattern then cnt
      else cnt + (e.2.filter (fun i => wildSub pattern (ws.getD i ""))).length) 0

/-- Matching modes; `Mode.part` is the source's `'partial'`. -/
inductive Mode | exact | part
deriving DecidableEq

/-- The pattern-bearing commands of the protocol (the ones whose handling the
claims are about; QUIT/STATS/BATCH take separate branches in the source). -/
inductive Cmd | FIND | FIND_MULTI | COUNT
deriving DecidableEq

/-- Structured response; `render` maps it to the exact bytes the source
sends. -/
inductive Resp
  | bad (reason : String)
  | notFound
  | okCount (n : Nat)
  | okList (ms : List String)
  | okGzip (payload : String)
deriving DecidableEq

/-- Wire rendering of a response, exactly the `send(...)` calls of the
source (every response ends with the `END` line). -/
def render : Resp → String
  | Resp.bad r => "400 BAD-REQUEST " ++ r ++ "\nEND\n"
  | Resp.notFound => "404 NOT-FOUND 0\nEND\n"
  | Resp.okCount n => "200 OK " ++ toString n ++ "\nEND\n"
  | Resp.okList ms =>
    "200 OK " ++ toString ms.length ++ "\n" ++ String.join (ms.map (fun w => w ++ "\n")) ++ "END\n"
  | Resp.okGzip b => "200 OK 1\n" ++ "GZIP " ++ b ++ "\nEND\n"

/-- The ` --accept-encoding ` suffix separator. -/
def encSep : List Char := " --accept-encoding ".data

/-- The ` RANGE ` suffix separator. -/
def rangeSep : List Char := " RANGE ".data

/-- The ` --mode ` suffix separator. -/
def modeSep : List Char := " --mode ".data

/-- Gzip negotiation block of both servers: strip the rightmost
` --accept-encoding ` suffix; its tail must be `gzip` after trim/lower. -/
def parseEncoding (rest : String) : Except String (String × Bool) :=
  if containsSub encSep rest.data then
    let pr := rsplit1 encSep rest.data
    if lowerS (trimWs (String.mk pr.2)) = "gzip" then Except.ok (String.mk pr.1, true)
    else Except.error "invalid encoding"
  else Except.ok (rest, false)

/-- RANGE block of both servers: the tail after the rightmost ` RANGE ` must
be exactly two digit tokens. -/
def parseRange (rest : String) : Except String (String × Option (Nat × Nat)) :=
  if containsSub rangeSep rest.data then
    let pr := rsplit1 rangeSep rest.data
    match splitWs (trimWsL pr.2) with
    | [a, b] =>
      if a.all isDigitC && b.all isDigitC then
        Except.ok (String.mk pr.1, some (parseNat a, parseNat b))
      else Except.error "invalid RANGE"
    | _ => Except.error "invalid RANGE"
  else Except.ok (rest, none)

/-- ` --mode ` block of the threaded server (server_threaded.py 417-432):
an empty part before the suffix is rejected first; then the tail must be
`exact` or `partial` case-insensitively. -/
def parseModeT (defaultMode : Mode) (rest : String) : Except String (String × Mode) :=
  if containsSub modeSep rest.data then
    let pr := rsplit1 modeSep rest.data
    if pr.1.isEmpty then Except.error "expected 'FIND <pattern>'"
    else
      let mv := lowerS (trimWs (String.mk pr.2))
      if mv = "exact" then Except.ok (String.mk pr.1, Mode.exact)
      else if mv = "partial" then Except.ok (String.mk pr.1, Mode.part)
      else Except.error "invalid mode"
  else Except.ok (rest, defaultMode)

/-- ` --mode ` block of the basic server (server_basic.py 372-381): only
`exact` is accepted; anything else is `mode not supported`. -/
def parseModeB (rest : String) : Except String String :=
  if containsSub modeSep rest.data then
    let pr := rsplit1 modeSep rest.data
    let mv := lowerS (trimWs (String.mk pr.2))
    if mv = "exact" then Except.ok (String.mk pr.1)
    else Except.error "mode not supported"
  else Except.ok rest

/-- `_effective_complexity_limits`: halved with floor 1 under memory
pressure (Python `// 2` on non-negative ints is `Nat` division). -/
def effectiveLimits (pressure : Bool) (cfgQ cfgS : Nat) : Nat × Nat :=
  if pressure then (max 1 (cfgQ / 2), max 1 (cfgS / 2)) else (cfgQ, cfgS)

/-- `is_pattern_too_complex`: `some reason` when a wildcard count exceeds
its limit (`?` is checked first, as in the source). -/
def isPatternTooComplex (pat : String) (maxQ maxS : Nat) : Option String :=
  let q := pat.data.countP (fun c => c == '?')
  let s := pat.data.countP (fun c => c == '*')
  if maxQ < q then some ("too many '?' wildcards (> " ++ toString maxQ ++ ")")
  else if maxS < s then some ("too many '*' wildcards (> " ++ toString maxS ++ ")")
  else none

/-- Mode dispatch of the find operations. -/
def findIn (pyhash : String → Int) (ws : List String) (m : Mode) (p : String) : List String :=
  match m with
  | Mode.exact => findExact pyhash ws p
  | Mode.part => findPart pyhash ws p

/-- Mode dispatch of the count operations. -/
def countIn (pyhash : String → Int) (ws : List String) (m : Mode) (p : String) : Nat :=
  match m with
  | Mode.exact => countExact pyhash ws p
  | Mode.part => countPart pyhash ws p

/-- Pagination: `matches[offset : offset + limit]` when a RANGE was parsed
(the parsed offset and limit are digit strings, hence non-negative, so the
negative clamping in the source is a no-op). -/
def applyRange (rng : Option (Nat × Nat)) (ms : List String) : List String :=
  match rng with
  | none => ms
  | some ol => (ms.drop ol.1).take ol.2

/-- FIND_MULTI merge step: append words not seen before (the `seen` set of
the source holds exactly the words already in the accumulator). -/
def dedupAppend (acc : List String) (ms : List String) : List String :=
  ms.foldl (fun a w => if a.contains w then a else a ++ [w]) acc

/-- FIND_MULTI merge preserving first-seen order across all token matches. -/
def mergeUnique (ls : List (List String)) : List String := ls.foldl dedupAppend []

/-- Tail of the FIND/FIND_MULTI handling: paginate, then reply 404 when the
window is empty, else the gzip line or the word list (server_threaded.py
544-568, server_basic.py 446-471). -/
def respondMatches (gz : Bool) (rng : Option (Nat × Nat)) (enc : String → String)
    (ms0 : List String) : Resp :=
  let ms := applyRange rng ms0
  if ms.length = 0 then Resp.notFound
  else if gz then Resp.okGzip (enc (String.intercalate "\n" ms))
  else Resp.okList ms

/-- `handle_connection` of the threaded server from `rest = parts[1]`
onward, for the pattern-bearing commands: suffix parsing in source order
(encoding, RANGE, mode), the pattern-length check, the complexity guard,
then dispatch.  `pressure` is the process-wide flag set by
`_memory_pressure_handler`; `enc` is the composite
`base64(gzip(utf8(...)))` encoder. -/
def handleRequestT (pyhash : String → Int) (ws : List String) (defaultMode : Mode)
    (pressure : Bool) (cfgQ cfgS maxPatLen : Nat) (enc : String → String)
    (cmd : Cmd) (rest : String) : Resp :=
  match parseEncoding rest with
  | Except.error r => Resp.bad r
  | Except.ok eg =>
    match parseRange eg.1 with
    | Except.error r => Resp.bad r
    | Except.ok rr =>
      match parseModeT defaultMode rr.1 with
      | Except.error r => Resp.bad r
      | Except.ok pm =>
        if maxPatLen < pm.1.length then Resp.bad "pattern too long"
        else
          match isPatternTooComplex pm.1 (effectiveLimits pressure cfgQ cfgS).1
              (effectiveLimits pressure cfgQ cfgS).2 with
          | some r => Resp.bad ("pattern too complex: " ++ r)
          | none =>
            match cmd with
            | Cmd.COUNT =>
              if countIn pyhash ws pm.2 pm.1 = 0 then Resp.notFound
              else Resp.okCount (countIn pyhash ws pm.2 pm.1)
            | Cmd.FIND => respondMatches eg.2 rr.2 enc (findIn pyhash ws pm.2 pm.1)
            | Cmd.FIND_MULTI =>
              match splitWs (trimWsL pm.1.data) with
              | [] => Resp.bad "expected 'FIND_MULTI <pattern1> <pattern2> ...'"
              | t :: ts =>
                respondMatches eg.2 rr.2 enc
                  (mergeUnique ((t :: ts).map (fun tok => findIn pyhash ws pm.2 (String.mk tok))))

/-- `serve_once` of the basic server from `rest = parts[1]` onward, for the
pattern-bearing commands: exact mode only. -/
def handleRequestB (pyhash : String → Int) (ws : List String)
    (pressure : Bool) (cfgQ cfgS maxPatLen : Nat) (enc : String → String)
    (cmd : Cmd) (rest : String) : Resp :=
  match parseEncoding rest with
  | Except.error r => Resp.bad r
  | Except.ok eg =>
    match parseRange eg.1 with
    | Except.error r => Resp.bad r
    | Except.ok rr =>
      match parseModeB rr.1 with
      | Except.error r => Resp.bad r
      | Except.ok pat =>
        if maxPatLen < pat.length then Resp.bad "pattern too long"
        else
          match isPatternTooComplex pat (effectiveLimits pressure cfgQ cfgS).1
              (effectiveLimits pressure cfgQ cfgS).2 with
          | some r => Resp.bad ("pattern too complex: " ++ r)
          | none =>
            match cmd with
            | Cmd.COUNT =>
              if countExact pyhash ws pat = 0 then Resp.notFound
              else Resp.okCount (countExact pyhash ws pat)
            | Cmd.FIND => respondMatches eg.2 rr.2 enc (findExact pyhash ws pat)
            | Cmd.FIND_MULTI =>
              match splitWs (trimWsL pat.data) with
              | [] => Resp.bad "expected 'FIND_MULTI <p1> <p2> ...'"
              | t :: ts =>
                respondMatches eg.2 rr.2 enc
                  (mergeUnique ((t :: ts).map (fun tok => findExact pyhash ws (String.mk tok))))

/-- A result sequence is in ascending corpus-index order: it is the image of
a strictly increasing list of in-range corpus indices. -/
def ascendingByCorpus (ws : List String) (res : List String) : Prop :=
  ∃ idx : List Nat, idx.Pairwise (fun a b => a < b) ∧ (∀ i ∈ idx, i < ws.length) ∧
    res = idx.map (fun i => ws.getD i "")

/-- A concrete instantiation of the opaque `pyhash` parameter, used to
evaluate the embedding at concrete inputs. -/
def hashZero : String → Int := fun _ => 0

/-! ## General helper lemmas -/

theorem bloomBit_eq_testBit (b h : Nat) : ((b >>> h) &&& 1 == 1) = b.testBit h := by
  rw [Nat.and_one_is_mod, Nat.testBit_to_div_mod, Nat.shiftRight_eq_div_pow]
  rcases Nat.mod_two_eq_zero_or_one (b / 2 ^ h) with h0 | h0 <;> simp [h0]

theorem bloomAdd_sets_own (mask : Nat) (pyhash : String → Int) (bits : Nat) (s : String) :
    bloomMaybe mask pyhash (bloomAdd mask pyhash bits s) s = true := by
  simp only [bloomMaybe, bloomAdd, bloomHashes, List.foldl_cons, List.foldl_nil,
    List.all_cons, List.all_nil, Bool.and_true, Bool.and_eq_true, bloomBit_eq_testBit]
  refine ⟨?_, ?_, ?_⟩ <;>
    simp [Nat.testBit_or, Nat.testBit_shiftLeft, Nat.testBit_one_zero]

theorem bloomAdd_mono (mask : Nat) (pyhash : String → Int) (bits : Nat) (s t : String)
    (h : bloomMaybe mask pyhash bits s = true) :
    bloomMaybe mask pyhash (bloomAdd mask pyhash bits t) s = true := by
  simp only [bloomMaybe, bloomHashes, List.all_cons, List.all_nil, Bool.and_true,
    Bool.and_eq_true, bloomBit_eq_testBit] at h ⊢
  simp [bloomAdd, bloomHashes, Nat.testBit_or, h.1, h.2.1, h.2.2]

theorem bloomFold_mono (mask : Nat) (pyhash : String → Int) (s : String) :
    ∀ (adds : List String) (bits : Nat), bloomMaybe mask pyhash bits s = true →
      bloomMaybe mask pyhash (adds.foldl (bloomAdd mask pyhash) bits) s = true := by
  intro adds
  induction adds with
  | nil => intro bits h; simpa using h
  | cons a as ih =>
    intro bits h
    exact ih (bloomAdd mask pyhash bits a) (bloomAdd_mono mask pyhash bits s a h)

/-! ## C7: the Bloom-like filter has no false negatives -/

/-- C7: for every hash function, initial bit set and sequence of `add`
calls, if `s` was added then every later `maybe_contains(s)` on the
resulting filter returns true; equivalently `maybe_contains(s)` is false
only if `s` was never added. -/
theorem C7_bloom_no_false_negatives (pyhash : String → Int) (mask bits : Nat)
    (adds : List String) (s : String) (hmem : s ∈ adds) :
    bloomMaybe mask pyhash (adds.foldl (bloomAdd mask pyhash) bits) s = true := by
  induction adds generalizing bits with
  | nil => cases hmem
  | cons a as ih =>
    rcases List.mem_cons.mp hmem with h | h
    · subst h
      exact bloomFold_mono mask pyhash s as (bloomAdd mask pyhash bits s)
        (bloomAdd_sets_own mask pyhash bits s)
    · exact ih (bloomAdd mask pyhash bits a) h

/-- Witness for C7 at a concrete filter state. -/
theorem C7_bloom_no_false_negatives_witness :
    ("ab" ∈ ["x", "ab"]) ∧
      bloomMaybe 65535 hashZero ((["x", "ab"] : List String).foldl (bloomAdd 65535 hashZero) 0) "ab" = true :=
  ⟨by decide, C7_bloom_no_false_negatives hashZero 65535 0 ["x", "ab"] "ab" (by decide)⟩

/-! ## C9: the empty pattern matches nothing in any mode -/

/-- C9: `should_skip_pattern` is true for the empty pattern, hence all four
search operations return the empty list or 0 on it — even in partial mode,
where every word contains the empty substring. -/
theorem C9_empty_pattern (pyhash : String → Int) (ws : List String) :
    shouldSkipPattern pyhash ws "" = true ∧
      findExact pyhash ws "" = [] ∧ countExact pyhash ws "" = 0 ∧
      findPart pyhash ws "" = [] ∧ countPart pyhash ws "" = 0 := by
  have hs : shouldSkipPattern pyhash ws "" = true := by simp [shouldSkipPattern]
  refine ⟨hs, ?_, ?_, ?_, ?_⟩ <;> simp [findExact, countExact, findPart, countPart, hs]

/-! ## Server-level helper lemmas -/

theorem respondMatches_ne_bad (gz : Bool) (rng : Option (Nat × Nat)) (enc : String → String)
    (ms : List String) (r : String) : respondMatches gz rng enc ms ≠ Resp.bad r := by
  unfold respondMatches
  by_cases h0 : (applyRange rng ms).length = 0 <;> by_cases hgz : gz <;> simp [h0, hgz]

theorem complex_reason_ne_multi (r : String) :
    ("pattern too complex: " ++ r) ≠ "expected 'FIND_MULTI <pattern1> <pattern2> ...'" := by
  intro h
  have h2 := congrArg (fun s : String => s.data.head?) h
  simp [String.data_append] at h2

theorem complex_reason_ne_multi_b (r : String) :
    ("pattern too complex: " ++ r) ≠ "expected 'FIND_MULTI <p1> <p2> ...'" := by
  intro h
  have h2 := congrArg (fun s : String => s.data.head?) h
  simp [String.data_append] at h2

/-! ## C3: COUNT replies 404 exactly on zero count, else 200 with no body -/

/-- C3: for a COUNT request that passes validation (on either server), the
reply is `404 NOT-FOUND 0` + `END` exactly when the count in the active mode
is zero, and otherwise `200 OK <count>` directly followed by `END`. -/
theorem C3_count_response (pyhash : String → Int) (ws : List String) (dm : Mode)
    (pressure : Bool) (cfgQ cfgS maxLen : Nat) (enc : String → String)
    (restT r1 r2 pT : String) (gz : Bool) (rng : Option (Nat × Nat)) (m : Mode)
    (hEnc : parseEncoding restT = Except.ok (r1, gz))
    (hRng : parseRange r1 = Except.ok (r2, rng))
    (hMode : parseModeT dm r2 = Except.ok (pT, m))
    (hLen : ¬ maxLen < pT.length)
    (hCx : isPatternTooComplex pT (effectiveLimits pressure cfgQ cfgS).1
      (effectiveLimits pressure cfgQ cfgS).2 = none)
    (restB b1 b2 pB : String) (gzB : Bool) (rngB : Option (Nat × Nat))
    (hEncB : parseEncoding restB = Except.ok (b1, gzB))
    (hRngB : parseRange b1 = Except.ok (b2, rngB))
    (hModeB : parseModeB b2 = Except.ok pB)
    (hLenB : ¬ maxLen < pB.length)
    (hCxB : isPatternTooComplex pB (effectiveLimits pressure cfgQ cfgS).1
      (effectiveLimits pressure cfgQ cfgS).2 = none) :
    handleRequestT pyhash ws dm pressure cfgQ cfgS maxLen enc Cmd.COUNT restT =
      (if countIn pyhash ws m pT = 0 then Resp.notFound else Resp.okCount (countIn pyhash ws m pT)) ∧
    handleRequestB pyhash ws pressure cfgQ cfgS maxLen enc Cmd.COUNT restB =
      (if countExact pyhash ws pB = 0 then Resp.notFound
       else Resp.okCount (countExact pyhash ws pB)) ∧
    render Resp.notFound = "404 NOT-FOUND 0\nEND\n" ∧
    (∀ n : Nat, render (Resp.okCount n) = "200 OK " ++ toString n ++ "\nEND\n") := by
  refine ⟨?_, ?_, rfl, fun n => rfl⟩
  · unfold handleRequestT
    simp only [hEnc, hRng, hMode]
    simp [hLen, hCx]
  · unfold handleRequestB
    simp only [hEncB, hRngB, hModeB]
    simp [hLenB, hCxB]

/-- Witness for C3 at a concrete request on a concrete corpus. -/
theorem C3_count_response_witness :
    parseEncoding "h?llo" = Except.ok ("h?llo", false) ∧
    parseRange "h?llo" = Except.ok ("h?llo", none) ∧
    parseModeT Mode.exact "h?llo" = Except.ok ("h?llo", Mode.exact) ∧
    parseModeB "h?llo" = Except.ok "h?llo" ∧
    (handleRequestT hashZero ["hello", "world"] Mode.exact false 5000 50 1000 id Cmd.COUNT "h?llo" =
      (if countIn hashZero ["hello", "world"] Mode.exact "h?llo" = 0 then Resp.notFound
       else Resp.okCount (countIn hashZero ["hello", "world"] Mode.exact "h?llo")) ∧
     handleRequestB hashZero ["hello", "world"] false 5000 50 1000 id Cmd.COUNT "h?llo" =
      (if countExact hashZero ["hello", "world"] "h?llo" = 0 then Resp.notFound
       else Resp.okCount (countExact hashZero ["hello", "world"] "h?llo")) ∧
     render Resp.notFound = "404 NOT-FOUND 0\nEND\n" ∧
     (∀ n : Nat, render (Resp.okCount n) = "200 OK " ++ toString n ++ "\nEND\n")) :=
  ⟨by rfl, by rfl, by rfl, by rfl,
    C3_count_response hashZero ["hello", "world"] Mode.exact false 5000 50 1000 id
      "h?llo" "h?llo" "h?llo" "h?llo" false none Mode.exact
      (by rfl) (by rfl) (by rfl) (by decide) (by decide)
      "h?llo" "h?llo" "h?llo" "h?llo" false none
      (by rfl) (by rfl) (by rfl) (by decide) (by decide)⟩

theorem applyRange_empty_window (o l : Nat) (ms : List String)
    (h : ms.length ≤ o ∨ l = 0) : applyRange (some (o, l)) ms = [] := by
  rcases h with h | h
  · simp only [applyRange]
    rw [List.drop_eq_nil_of_le h]
    simp
  · subst h
    simp [applyRange]

theorem respondMatches_empty_window (gz : Bool) (enc : String → String) (o l : Nat)
    (ms0 : List String) (h : ms0.length ≤ o ∨ l = 0) :
    respondMatches gz (some (o, l)) enc ms0 = Resp.notFound := by
  unfold respondMatches
  rw [applyRange_empty_window o l ms0 h]
  simp

/-! ## C10: a valid RANGE window past the matches yields 404 -/

/-- C10: for FIND (threaded and basic) and FIND_MULTI (threaded) with a valid
RANGE whose window selects none of the matches (offset at or past the end, or
limit 0), the reply is `404 NOT-FOUND 0` although the unpaginated match list
is non-empty: the zero check runs after pagination. -/
theorem C10_empty_window (pyhash : String → Int) (ws : List String) (dm : Mode)
    (pressure : Bool) (cfgQ cfgS maxLen : Nat) (enc : String → String)
    (restT r1 r2 pT : String) (gz : Bool) (o l : Nat) (m : Mode)
    (hEnc : parseEncoding restT = Except.ok (r1, gz))
    (hRng : parseRange r1 = Except.ok (r2, some (o, l)))
    (hMode : parseModeT dm r2 = Except.ok (pT, m))
    (hLen : ¬ maxLen < pT.length)
    (hCx : isPatternTooComplex pT (effectiveLimits pressure cfgQ cfgS).1
      (effectiveLimits pressure cfgQ cfgS).2 = none) :
    ((findIn pyhash ws m pT ≠ [] ∧ ((findIn pyhash ws m pT).length ≤ o ∨ l = 0)) →
        handleRequestT pyhash ws dm pressure cfgQ cfgS maxLen enc Cmd.FIND restT =
          Resp.notFound) ∧
    (∀ t ts, splitWs (trimWsL pT.data) = t :: ts →
      mergeUnique ((t :: ts).map (fun tok => findIn pyhash ws m (String.mk tok))) ≠ [] →
      ((mergeUnique ((t :: ts).map (fun tok => findIn pyhash ws m (String.mk tok)))).length ≤ o ∨
        l = 0) →
      handleRequestT pyhash ws dm pressure cfgQ cfgS maxLen enc Cmd.FIND_MULTI restT =
        Resp.notFound) ∧
    (∀ pB : String, parseModeB r2 = Except.ok pB → ¬ maxLen < pB.length →
      isPatternTooComplex pB (effectiveLimits pressure cfgQ cfgS).1
        (effectiveLimits pressure cfgQ cfgS).2 = none →
      findExact pyhash ws pB ≠ [] → ((findExact pyhash ws pB).length ≤ o ∨ l = 0) →
      handleRequestB pyhash ws pressure cfgQ cfgS maxLen enc Cmd.FIND restT = Resp.notFound) ∧
    render Resp.notFound = "404 NOT-FOUND 0\nEND\n" := by
  refine ⟨?_, ?_, ?_, rfl⟩
  · intro h
    unfold handleRequestT
    simp only [hEnc, hRng, hMode]
    simp [hLen, hCx, respondMatches_empty_window _ _ _ _ _ h.2]
  · intro t ts hTok hne hwin
    simp only [List.map_cons] at hwin
    unfold handleRequestT
    simp only [hEnc, hRng, hMode]
    simp [hLen, hCx, hTok, respondMatches_empty_window _ _ _ _ _ hwin]
  · intro pB hModeB hLenB hCxB hne hwin
    unfold handleRequestB
    simp only [hEnc, hRng, hModeB]
    simp [hLenB, hCxB, respondMatches_empty_window _ _ _ _ _ hwin]

/-- Witness for C10: two matches, window `RANGE 5 2` past the end. -/
theorem C10_empty_window_witness :
    (findIn hashZero ["ab", "ax"] Mode.exact "a?" ≠ [] ∧
      ((findIn hashZero ["ab", "ax"] Mode.exact "a?").length ≤ 5 ∨ (2 : Nat) = 0)) ∧
    handleRequestT hashZero ["ab", "ax"] Mode.exact false 5000 50 1000 id Cmd.FIND
      "a? RANGE 5 2" = Resp.notFound :=
  ⟨⟨by decide, Or.inl (by decide)⟩,
    (C10_empty_window hashZero ["ab", "ax"] Mode.exact false 5000 50 1000 id
      "a? RANGE 5 2" "a? RANGE 5 2" "a?" "a?" false 5 2 Mode.exact
      (by rfl) (by rfl) (by rfl) (by decide) (by decide)).1
      ⟨by decide, Or.inl (by decide)⟩⟩

/-! ## C6: negotiated gzip responses -/

/-- C6: when gzip was negotiated and the paginated match list `ms` is
non-empty, the status line is `200 OK 1`, the body is the single line
`GZIP <payload>` with `payload = enc (words joined by newline, no trailing
newline)`, decoding with any left inverse of `enc` recovers that joined
body, and the words are exactly the ones an uncompressed FIND response
would list (`Resp.okList ms`).  Holds for both servers. -/
theorem C6_gzip_roundtrip (pyhash : String → Int) (ws : List String) (dm : Mode)
    (pressure : Bool) (cfgQ cfgS maxLen : Nat) (enc : String → String)
    (restT r1 r2 pT : String) (rng : Option (Nat × Nat)) (m : Mode)
    (hEnc : parseEncoding restT = Except.ok (r1, true))
    (hRng : parseRange r1 = Except.ok (r2, rng))
    (hMode : parseModeT dm r2 = Except.ok (pT, m))
    (hLen : ¬ maxLen < pT.length)
    (hCx : isPatternTooComplex pT (effectiveLimits pressure cfgQ cfgS).1
      (effectiveLimits pressure cfgQ cfgS).2 = none)
    (ms : List String)
    (hms : ms = applyRange rng (findIn pyhash ws m pT))
    (hne : ms ≠ []) :
    handleRequestT pyhash ws dm pressure cfgQ cfgS maxLen enc Cmd.FIND restT =
      Resp.okGzip (enc (String.intercalate "\n" ms)) ∧
    render (Resp.okGzip (enc (String.intercalate "\n" ms))) =
      "200 OK 1\n" ++ "GZIP " ++ enc (String.intercalate "\n" ms) ++ "\nEND\n" ∧
    (∀ dec : String → String, (∀ s, dec (enc s) = s) →
      dec (enc (String.intercalate "\n" ms)) = String.intercalate "\n" ms) ∧
    respondMatches false rng enc (findIn pyhash ws m pT) = Resp.okList ms ∧
    (∀ pB : String, parseModeB r2 = Except.ok pB → ¬ maxLen < pB.length →
      isPatternTooComplex pB (effectiveLimits pressure cfgQ cfgS).1
        (effectiveLimits pressure cfgQ cfgS).2 = none →
      ∀ msB : List String, msB = applyRange rng (findExact pyhash ws pB) → msB ≠ [] →
        handleRequestB pyhash ws pressure cfgQ cfgS maxLen enc Cmd.FIND restT =
          Resp.okGzip (enc (String.intercalate "\n" msB))) := by
  have hlen0 : ¬ (applyRange rng (findIn pyhash ws m pT)).length = 0 := by
    rw [← hms]
    simpa using hne
  refine ⟨?_, rfl, fun dec hdec => hdec _, ?_, ?_⟩
  · unfold handleRequestT
    simp only [hEnc, hRng, hMode]
    simp [hLen, hCx, respondMatches, hlen0, hms]
  · simp [respondMatches, hlen0, hms]
  · intro pB hModeB hLenB hCxB msB hmsB hneB
    have hlenB : ¬ (applyRange rng (findExact pyhash ws pB)).length = 0 := by
      rw [← hmsB]
      simpa using hneB
    unfold handleRequestB
    simp only [hEnc, hRng, hModeB]
    simp [hLenB, hCxB, respondMatches, hlenB, hmsB]

/-- Witness for C6 at a concrete gzip-negotiated request (with the identity
standing in for the encoder, which satisfies the round-trip hypothesis). -/
theorem C6_gzip_roundtrip_witness :
    parseEncoding "a? --accept-encoding gzip" = Except.ok ("a?", true) ∧
    handleRequestT hashZero ["ab", "ax"] Mode.exact false 5000 50 1000 id Cmd.FIND
        "a? --accept-encoding gzip" =
      Resp.okGzip (id (String.intercalate "\n" ["ab", "ax"])) :=
  ⟨by rfl,
    (C6_gzip_roundtrip hashZero ["ab", "ax"] Mode.exact false 5000 50 1000 id
      "a? --accept-encoding gzip" "a?" "a?" "a?" none Mode.exact
      (by rfl) (by rfl) (by rfl) (by decide) (by decide)
      ["ab", "ax"] (by rfl) (by decide)).1⟩

theorem tooComplex_some_iff (pat : String) (mq ms : Nat) :
    (∃ r, isPatternTooComplex pat mq ms = some r) ↔
      (mq < pat.data.countP (fun c => c == '?') ∨ ms < pat.data.countP (fun c => c == '*')) := by
  unfold isPatternTooComplex
  by_cases h1 : mq < pat.data.countP (fun c => c == '?')
  · simp [h1]
  · by_cases h2 : ms < pat.data.countP (fun c => c == '*') <;> simp [h1, h2]

/-! ## C4: the complexity guard fires exactly on exceeded wildcard budgets -/

/-- C4: for a request with a pattern that passed the earlier validation
steps, the reply is `400 BAD-REQUEST pattern too complex: <reason>` if and
only if the number of `?` exceeds the effective question limit or the number
of `*` exceeds the effective star limit, where under memory pressure each
effective limit is the configured one halved with floor 1. -/
theorem C4_complexity_guard (pyhash : String → Int) (ws : List String) (dm : Mode)
    (pressure : Bool) (cfgQ cfgS maxLen : Nat) (enc : String → String) (cmd : Cmd)
    (restT r1 r2 pT : String) (gz : Bool) (rng : Option (Nat × Nat)) (m : Mode)
    (hEnc : parseEncoding restT = Except.ok (r1, gz))
    (hRng : parseRange r1 = Except.ok (r2, rng))
    (hMode : parseModeT dm r2 = Except.ok (pT, m))
    (hLen : ¬ maxLen < pT.length) :
    ((∃ r, handleRequestT pyhash ws dm pressure cfgQ cfgS maxLen enc cmd restT =
        Resp.bad ("pattern too complex: " ++ r)) ↔
      ((effectiveLimits pressure cfgQ cfgS).1 < pT.data.countP (fun c => c == '?') ∨
       (effectiveLimits pressure cfgQ cfgS).2 < pT.data.countP (fun c => c == '*'))) ∧
    (pressure = true → effectiveLimits pressure cfgQ cfgS = (max 1 (cfgQ / 2), max 1 (cfgS / 2))) ∧
    (pressure = false → effectiveLimits pressure cfgQ cfgS = (cfgQ, cfgS)) ∧
    (∀ r, render (Resp.bad r) = "400 BAD-REQUEST " ++ r ++ "\nEND\n") := by
  refine ⟨?_, fun h => by simp [effectiveLimits, h], fun h => by simp [effectiveLimits, h],
    fun r => rfl⟩
  rw [← tooComplex_some_iff pT (effectiveLimits pressure cfgQ cfgS).1
    (effectiveLimits pressure cfgQ cfgS).2]
  constructor
  · rintro ⟨r, hr⟩
    cases hcase : isPatternTooComplex pT (effectiveLimits pressure cfgQ cfgS).1
        (effectiveLimits pressure cfgQ cfgS).2 with
    | some r2 => exact ⟨r2, rfl⟩
    | none =>
      exfalso
      unfold handleRequestT at hr
      simp only [hEnc, hRng, hMode] at hr
      rw [if_neg hLen] at hr
      simp only [hcase] at hr
      cases cmd with
      | COUNT =>
        by_cases h0 : countIn pyhash ws m pT = 0
        · rw [if_pos h0] at hr
          exact Resp.noConfusion hr
        · rw [if_neg h0] at hr
          exact Resp.noConfusion hr
      | FIND => exact respondMatches_ne_bad _ _ _ _ _ hr
      | FIND_MULTI =>
        rcases htok : splitWs (trimWsL pT.data) with _ | ⟨t, ts⟩
        · rw [htok] at hr
          simp only [Resp.bad.injEq] at hr
          exact complex_reason_ne_multi r hr.symm
        · rw [htok] at hr
          exact respondMatches_ne_bad _ _ _ _ _ hr
  · rintro ⟨r, hsome⟩
    refine ⟨r, ?_⟩
    unfold handleRequestT
    simp only [hEnc, hRng, hMode]
    rw [if_neg hLen]
    simp only [hsome]

/-- Witness for C4 with a star budget of 0 and the pattern `a*b`. -/
theorem C4_complexity_guard_witness :
    ((effectiveLimits false 5000 0).2 < ("a*b" : String).data.countP (fun c => c == '*')) ∧
    (∃ r, handleRequestT hashZero [] Mode.exact false 5000 0 1000 id Cmd.FIND "a*b" =
      Resp.bad ("pattern too complex: " ++ r)) :=
  ⟨by decide,
    (C4_complexity_guard hashZero [] Mode.exact false 5000 0 1000 id Cmd.FIND
      "a*b" "a*b" "a*b" "a*b" false none Mode.exact
      (by rfl) (by rfl) (by rfl) (by decide)).1.mpr (Or.inr (by decide))⟩

/-! ## C8: mode-suffix error replies (corrected) -/

/-- Counterexample to C8 as stated: the request remainder ` --mode bogus`
contains ` --mode ` and its tail `bogus` is neither `exact` nor `partial`,
yet the threaded server replies `400 BAD-REQUEST expected 'FIND <pattern>'`,
not `invalid mode`, because the part before the suffix is empty and that
check comes first. -/
theorem C8_counterexample :
    containsSub modeSep (" --mode bogus" : String).data = true ∧
    (rsplit1 modeSep (" --mode bogus" : String).data).1 = [] ∧
    lowerS (trimWs (String.mk (rsplit1 modeSep (" --mode bogus" : String).data).2)) ≠ "exact" ∧
    lowerS (trimWs (String.mk (rsplit1 modeSep (" --mode bogus" : String).data).2)) ≠ "partial" ∧
    handleRequestT hashZero [] Mode.exact false 5000 50 1000 id Cmd.FIND " --mode bogus" =
      Resp.bad "expected 'FIND <pattern>'" ∧
    handleRequestT hashZero [] Mode.exact false 5000 50 1000 id Cmd.FIND " --mode bogus" ≠
      Resp.bad "invalid mode" := by
  refine ⟨by decide, by decide, by decide, by decide, by decide, by decide⟩

/-- C8 (amended): when the remainder contains ` --mode `, the threaded
server replies `400 BAD-REQUEST invalid mode` when the part before the
rightmost split is non-empty and the tail is neither `exact` nor `partial`
(case-insensitive); with an empty part before the split it replies
`400 BAD-REQUEST expected 'FIND <pattern>'` instead.  The basic server
replies `400 BAD-REQUEST mode not supported` for every tail other than
`exact`, in particular for `partial`. -/
theorem C8_mode_errors (pyhash : String → Int) (ws : List String) (dm : Mode)
    (pressure : Bool) (cfgQ cfgS maxLen : Nat) (enc : String → String) (cmd : Cmd)
    (restT r1 r2 : String) (gz : Bool) (rng : Option (Nat × Nat))
    (hEnc : parseEncoding restT = Except.ok (r1, gz))
    (hRng : parseRange r1 = Except.ok (r2, rng))
    (pp tl : List Char)
    (hSub : containsSub modeSep r2.data = true)
    (hSplit : rsplit1 modeSep r2.data = (pp, tl)) :
    (pp ≠ [] → lowerS (trimWs (String.mk tl)) ≠ "exact" →
      lowerS (trimWs (String.mk tl)) ≠ "partial" →
      handleRequestT pyhash ws dm pressure cfgQ cfgS maxLen enc cmd restT =
        Resp.bad "invalid mode") ∧
    (pp = [] →
      handleRequestT pyhash ws dm pressure cfgQ cfgS maxLen enc cmd restT =
        Resp.bad "expected 'FIND <pattern>'") ∧
    (lowerS (trimWs (String.mk tl)) ≠ "exact" →
      handleRequestB pyhash ws pressure cfgQ cfgS maxLen enc cmd restT =
        Resp.bad "mode not supported") ∧
    (∀ r, render (Resp.bad r) = "400 BAD-REQUEST " ++ r ++ "\nEND\n") := by
  refine ⟨?_, ?_, ?_, fun r => rfl⟩
  · intro hpp hne1 hne2
    unfold handleRequestT
    simp only [hEnc, hRng]
    unfold parseModeT
    rw [if_pos hSub]
    simp only [hSplit]
    have hppE : pp.isEmpty = false := by
      cases pp with
      | nil => exact absurd rfl hpp
      | cons a l => rfl
    simp [hppE, hne1, hne2]
  · intro hpp
    subst hpp
    unfold handleRequestT
    simp only [hEnc, hRng]
    unfold parseModeT
    rw [if_pos hSub]
    simp only [hSplit]
    simp
  · intro hne1
    unfold handleRequestB
    simp only [hEnc, hRng]
    unfold parseModeB
    rw [if_pos hSub]
    simp only [hSplit]
    simp [hne1]

/-- Witness for the amended C8 at concrete requests on both servers. -/
theorem C8_mode_errors_witness :
    (rsplit1 modeSep ("x --mode bogus" : String).data).1 ≠ [] ∧
    handleRequestT hashZero [] Mode.exact false 5000 50 1000 id Cmd.FIND "x --mode bogus" =
      Resp.bad "invalid mode" ∧
    handleRequestB hashZero [] false 5000 50 1000 id Cmd.FIND "x --mode partial" =
      Resp.bad "mode not supported" :=
  ⟨by decide,
    (C8_mode_errors hashZero [] Mode.exact false 5000 50 1000 id Cmd.FIND
      "x --mode bogus" "x --mode bogus" "x --mode bogus" false none (by rfl) (by rfl)
      "x".data "bogus".data (by decide) (by rfl)).1
      (by decide) (by decide) (by decide),
    (C8_mode_errors hashZero [] Mode.exact false 5000 50 1000 id Cmd.FIND
      "x --mode partial" "x --mode partial" "x --mode partial" false none (by rfl) (by rfl)
      "x".data "partial".data (by decide) (by rfl)).2.2.1 (by decide)⟩

/-! ## C2 helper lemmas -/

theorem length_foldl_app (l : List (Nat × List Nat)) (cond : Nat × List Nat → Prop)
    [DecidablePred cond] (g : Nat × List Nat → List String) :
    ∀ acc : List String,
      (l.foldl (fun a e => if cond e then a else a ++ g e) acc).length =
        l.foldl (fun c e => if cond e then c else c + (g e).length) acc.length := by
  induction l with
  | nil => intro acc; rfl
  | cons e l ih =>
    intro acc
    by_cases h : cond e
    · simp only [List.foldl_cons, if_pos h]
      exact ih acc
    · simp only [List.foldl_cons, if_neg h]
      rw [ih (acc ++ g e), List.length_append]

theorem sumGE_bucketInsert (bs : List (Nat × List Nat)) (K i L : Nat) :
    (((bucketInsert bs K i).filter (fun e => L ≤ e.1)).map (fun e => e.2.length)).sum =
      ((bs.filter (fun e => L ≤ e.1)).map (fun e => e.2.length)).sum +
        (if L ≤ K then 1 else 0) := by
  induction bs with
  | nil => by_cases h : L ≤ K <;> simp [bucketInsert, h]
  | cons e bs ih =>
    rcases e with ⟨K2, is2⟩
    simp only [bucketInsert]
    by_cases hK : K2 = K
    · subst hK
      by_cases h : L ≤ K2 <;> simp [h] <;> omega
    · rw [if_neg hK]
      by_cases h : L ≤ K2 <;> simp [h, ih] <;> omega

theorem sumGE_lenToIndicesAux (L : Nat) :
    ∀ (l : List String) (n : Nat) (bs : List (Nat × List Nat)),
      (((lenToIndicesAux bs (enumFromN n l)).filter (fun e => L ≤ e.1)).map
          (fun e => e.2.length)).sum =
        ((bs.filter (fun e => L ≤ e.1)).map (fun e => e.2.length)).sum +
          l.countP (fun w => L ≤ w.length) := by
  intro l
  induction l with
  | nil =>
    intro n bs
    simp [enumFromN, lenToIndicesAux]
  | cons w l ih =>
    intro n bs
    simp only [enumFromN, lenToIndicesAux]
    rw [ih (n + 1) (bucketInsert bs w.length n), sumGE_bucketInsert, List.countP_cons]
    by_cases h : L ≤ w.length <;> simp [h] <;> omega

theorem lowerS_length (s : String) : (lowerS s).length = s.length := by
  show (s.data.map lowerC).length = s.data.length
  simp

/-! ## C2: counting variants agree with the list-producing variants -/

/-- C2: for every pattern, `count_exact` equals the length of `find_exact`
and `count_partial` equals the length of `find_partial`. -/
theorem C2_counts_agree (pyhash : String → Int) (ws : List String) (p : String) :
    countExact pyhash ws p = (findExact pyhash ws p).length ∧
    countPart pyhash ws p = (findPart pyhash ws p).length := by
  have hsum : (((lenToIndices ws).filter (fun e => p.length ≤ e.1)).map
      (fun e => e.2.length)).sum = (ws.filter (fun w => p.length ≤ w.length)).length := by
    rw [lenToIndices, sumGE_lenToIndicesAux p.length (ws.map lowerS) 0 [], List.countP_map]
    have hfun : ((fun w => decide (p.length ≤ w.length)) ∘ lowerS) =
        (fun w : String => decide (p.length ≤ w.length)) := by
      funext w
      simp [Function.comp, lowerS_length]
    rw [hfun, List.countP_eq_length_filter]
    simp
  constructor
  · unfold countExact findExact
    by_cases hsk : shouldSkipPattern pyhash ws p
    · simp [hsk]
    · simp only [if_neg hsk]
      by_cases hst : p.data.contains '*' = true
      · simp only [hst, Bool.not_true]
        rw [if_neg (by simp)]
        rw [if_neg (by simp)]
        rw [length_foldl_app]
        simp
      · have hst2 : p.data.contains '*' = false := by
          cases h2 : p.data.contains '*'
          · rfl
          · exact absurd h2 hst
        simp only [hst2, Bool.not_false, if_true]
        simp
  · unfold countPart findPart
    by_cases hsk : shouldSkipPattern pyhash ws p
    · simp [hsk]
    · simp only [if_neg hsk]
      by_cases hst : p.data.contains '*' = true
      · simp only [hst, Bool.not_true]
        rw [if_neg (by simp)]
        rw [if_neg (by simp)]
        rw [length_foldl_app]
        simp
      · have hst2 : p.data.contains '*' = false := by
          cases h2 : p.data.contains '*'
          · rfl
          · exact absurd h2 hst
        simp only [hst2, Bool.not_false, if_true]
        by_cases hq : allQ p = true
        · rw [if_pos hq, if_pos hq, hsum]
        · rw [if_neg hq, if_neg hq]
          rw [length_foldl_app]
          simp

/-! ## C1 helper lemmas: bucket lists are strictly increasing and in range -/

theorem bucketInsert_inv (bs : List (Nat × List Nat)) (K n : Nat)
    (h : ∀ e ∈ bs, e.2.Pairwise (fun a b => a < b) ∧ ∀ i ∈ e.2, i < n) :
    ∀ e ∈ bucketInsert bs K n, e.2.Pairwise (fun a b => a < b) ∧ ∀ i ∈ e.2, i < n + 1 := by
  induction bs with
  | nil =>
    intro e he
    simp only [bucketInsert, List.mem_singleton] at he
    subst he
    refine ⟨List.pairwise_singleton _ _, ?_⟩
    intro i hi
    simp only [List.mem_singleton] at hi
    omega
  | cons b bs ih =>
    rcases b with ⟨K2, is2⟩
    intro e he
    have hb := h (K2, is2) (by simp)
    simp only [bucketInsert] at he
    by_cases hK : K2 = K
    · rw [if_pos hK] at he
      rcases List.mem_cons.mp he with he1 | he2
      · subst he1
        constructor
        · rw [List.pairwise_append]
          refine ⟨hb.1, List.pairwise_singleton _ _, ?_⟩
          intro a ha b2 hb2
          simp only [List.mem_singleton] at hb2
          subst hb2
          exact hb.2 a ha
        · intro i hi
          rcases List.mem_append.mp hi with h1 | h1
          · have := hb.2 i h1
            omega
          · simp only [List.mem_singleton] at h1
            omega
      · have := h e (List.mem_cons_of_mem _ he2)
        refine ⟨this.1, ?_⟩
        intro i hi
        have := this.2 i hi
        omega
    · rw [if_neg hK] at he
      rcases List.mem_cons.mp he with he1 | he2
      · subst he1
        refine ⟨hb.1, ?_⟩
        intro i hi
        have := hb.2 i hi
        omega
      · exact ih (fun e2 he2b => h e2 (List.mem_cons_of_mem _ he2b)) e he2

theorem lenToIndicesAux_inv :
    ∀ (l : List String) (n : Nat) (bs : List (Nat × List Nat)),
      (∀ e ∈ bs, e.2.Pairwise (fun a b => a < b) ∧ ∀ i ∈ e.2, i < n) →
      ∀ e ∈ lenToIndicesAux bs (enumFromN n l),
        e.2.Pairwise (fun a b => a < b) ∧ ∀ i ∈ e.2, i < n + l.length := by
  intro l
  induction l with
  | nil =>
    intro n bs h e he
    simp only [enumFromN, lenToIndicesAux] at he
    refine ⟨(h e he).1, ?_⟩
    intro i hi
    have := (h e he).2 i hi
    simp only [List.length_nil]
    omega
  | cons w l ih =>
    intro n bs h e he
    simp only [enumFromN, lenToIndicesAux] at he
    have hrec := ih (n + 1) (bucketInsert bs w.length n) (bucketInsert_inv bs w.length n h) e he
    refine ⟨hrec.1, ?_⟩
    intro i hi
    have := hrec.2 i hi
    simp only [List.length_cons]
    omega

theorem lenToIndices_inv (ws : List String) :
    ∀ e ∈ lenToIndices ws, e.2.Pairwise (fun a b => a < b) ∧ ∀ i ∈ e.2, i < ws.length := by
  intro e he
  have h0 : ∀ e2 ∈ ([] : List (Nat × List Nat)),
      e2.2.Pairwise (fun a b => a < b) ∧ ∀ i ∈ e2.2, i < 0 := by simp
  have hrec := lenToIndicesAux_inv (ws.map lowerS) 0 [] h0 e he
  refine ⟨hrec.1, ?_⟩
  intro i hi
  have := hrec.2 i hi
  simpa using this

theorem bucketGet_inv (ws : List String) (L : Nat) :
    (bucketGet (lenToIndices ws) L).Pairwise (fun a b => a < b) ∧
      ∀ i ∈ bucketGet (lenToIndices ws) L, i < ws.length := by
  unfold bucketGet
  cases hf : (lenToIndices ws).find? (fun e => e.1 == L) with
  | none => simp
  | some e => exact lenToIndices_inv ws e (List.mem_of_find?_eq_some hf)

theorem exactIndices_inv (ws : List String) (p : String) :
    (exactIndicesViaPosIndex ws p).Pairwise (fun a b => a < b) ∧
      ∀ i ∈ exactIndicesViaPosIndex ws p, i < ws.length := by
  have hb := bucketGet_inv ws p.length
  unfold exactIndicesViaPosIndex
  by_cases h1 : (bucketGet (lenToIndices ws) p.length).isEmpty
  · simp [h1]
  · simp only [h1, if_false, Bool.false_eq_true]
    by_cases h2 : (fixedPositions (lowerS p).data).isEmpty
    · simp only [h2, if_true]
      exact hb
    · simp only [h2, if_false, Bool.false_eq_true]
      constructor
      · exact hb.1.sublist (List.filter_sublist _)
      · intro i hi
        exact hb.2 i (List.mem_of_mem_filter hi)

theorem ascending_nil (ws : List String) : ascendingByCorpus ws [] :=
  ⟨[], by simp, by simp, by simp⟩

theorem ascending_of_map (ws : List String) (idx : List Nat)
    (h1 : idx.Pairwise (fun a b => a < b)) (h2 : ∀ i ∈ idx, i < ws.length) :
    ascendingByCorpus ws (idx.map (fun i => ws.getD i "")) := ⟨idx, h1, h2, rfl⟩

theorem ascending_filter (ws : List String) (pred : String → Bool) :
    ascendingByCorpus ws (ws.filter pred) := by
  induction ws with
  | nil => exact ⟨[], by simp, by simp, by simp⟩
  | cons w t ih =>
    rcases ih with ⟨idx, hpw, hbd, heq⟩
    by_cases hp : pred w = true
    · refine ⟨0 :: idx.map (fun i => i + 1), ?_, ?_, ?_⟩
      · rw [List.pairwise_cons]
        constructor
        · intro b hbmem
          simp only [List.mem_map] at hbmem
          rcases hbmem with ⟨i, _, rfl⟩
          omega
        · rw [List.pairwise_map]
          exact hpw.imp (fun h => by omega)
      · intro i hi
        rcases List.mem_cons.mp hi with rfl | hi2
        · simp
        · simp only [List.mem_map] at hi2
          rcases hi2 with ⟨j, hj, rfl⟩
          have := hbd j hj
          simp only [List.length_cons]
          omega
      · rw [List.filter_cons_of_pos hp, heq]
        simp [List.map_map, Function.comp, List.getD_cons_succ, List.getD_cons_zero]
    · refine ⟨idx.map (fun i => i + 1), ?_, ?_, ?_⟩
      · rw [List.pairwise_map]
        exact hpw.imp (fun h => by omega)
      · intro i hi
        simp only [List.mem_map] at hi
        rcases hi with ⟨j, hj, rfl⟩
        have := hbd j hj
        simp only [List.length_cons]
        omega
      · rw [List.filter_cons_of_neg (by simpa using hp), heq]
        simp [List.map_map, Function.comp, List.getD_cons_succ]

/-! ## C1: result ordering (corrected) -/

/-- Counterexample to C1 as stated: on the corpus `["ab", "c", "ax"]` the
pattern `*` matches every word, but `find_exact` lists them as
`["ab", "ax", "c"]` — corpus indices 0, 2, 1 — because the `*` path walks
the length buckets in first-occurrence order of word lengths, not in corpus
order.  So the result is not in ascending corpus-index order. -/
theorem C1_counterexample :
    findExact hashZero ["ab", "c", "ax"] "*" = ["ab", "ax", "c"] ∧
    ¬ ascendingByCorpus ["ab", "c", "ax"] (findExact hashZero ["ab", "c", "ax"] "*") := by
  have h1 : findExact hashZero ["ab", "c", "ax"] "*" = ["ab", "ax", "c"] := by decide
  refine ⟨h1, ?_⟩
  rw [h1]
  rintro ⟨idx, hpw, hbd, heq⟩
  have hlen : idx.length = 3 := by
    have := congrArg List.length heq
    simpa using this.symm
  obtain ⟨a, b, c, rfl⟩ : ∃ a b c, idx = [a, b, c] := by
    rcases idx with _ | ⟨a, _ | ⟨b, _ | ⟨c, _ | rest⟩⟩⟩ <;> simp at hlen
    exact ⟨a, b, c, rfl⟩
  have ha : a < 3 := by simpa using hbd a (by simp)
  have hb2 : b < 3 := by simpa using hbd b (by simp)
  have hc : c < 3 := by simpa using hbd c (by simp)
  simp only [List.map_cons, List.map_nil, List.cons.injEq, and_true] at heq
  interval_cases a <;> interval_cases b <;> interval_cases c <;>
    (revert hpw heq; decide)

/-- C1 (amended): the code guarantees ascending corpus-index order only on
the paths that do not walk the length buckets: `find_exact` for patterns
without `*` and `find_partial` for all-`?` patterns list matches as the
image of a strictly increasing list of corpus indices; pagination always
returns a contiguous slice of the result order.  For patterns taking the
bucket-walking paths the order is ascending only within each length bucket
(buckets in first-occurrence order), as the counterexample shows. -/
theorem C1_result_order (pyhash : String → Int) (ws : List String) (p : String)
    (o l : Nat) (ms : List String) :
    (p.data.contains '*' = false → ascendingByCorpus ws (findExact pyhash ws p)) ∧
    (allQ p = true → ascendingByCorpus ws (findPart pyhash ws p)) ∧
    applyRange (some (o, l)) ms <:+: ms := by
  refine ⟨?_, ?_, ?_⟩
  · intro hst
    unfold findExact
    by_cases hsk : shouldSkipPattern pyhash ws p
    · simp only [if_pos hsk]
      exact ascending_nil ws
    · simp only [if_neg hsk, hst, Bool.not_false, if_true]
      exact ascending_of_map ws _ (exactIndices_inv ws p).1 (exactIndices_inv ws p).2
  · intro hq
    have hall : ∀ c ∈ p.data, c = '?' := by
      intro c hcmem
      have := List.all_eq_true.mp hq c hcmem
      simpa using this
    have hst : p.data.contains '*' = false := by
      cases hc : p.data.contains '*' with
      | false => rfl
      | true =>
        have hmem : '*' ∈ p.data := by
          simpa using hc
        have := hall '*' hmem
        simp at this
    unfold findPart
    by_cases hsk : shouldSkipPattern pyhash ws p
    · simp only [if_pos hsk]
      exact ascending_nil ws
    · simp only [if_neg hsk, hst, Bool.not_false, if_true, hq]
      exact ascending_filter ws _
  · simp only [applyRange]
    exact (List.take_prefix _ _).isInfix.trans (List.drop_suffix _ _).isInfix

/-- Witness for the amended C1 at a concrete star-free pattern. -/
theorem C1_result_order_witness :
    (("a?" : String).data.contains '*' = false) ∧
      ascendingByCorpus ["ab", "cd"] (findExact hashZero ["ab", "cd"] "a?") :=
  ⟨by decide, (C1_result_order hashZero ["ab", "cd"] "a?" 0 1 []).1 (by decide)⟩

/-! ## C5 helper lemmas: character lowering and pattern transport -/

theorem lowerC_eq_star (c : Char) : lowerC c = '*' ↔ c = '*' := by
  unfold lowerC
  split <;> simp_all

theorem lowerC_eq_q (c : Char) : lowerC c = '?' ↔ c = '?' := by
  unfold lowerC
  split <;> simp_all

theorem contains_star_lower (l : List Char) : l.contains '*' = (l.map lowerC).contains '*' := by
  induction l with
  | nil => rfl
  | cons c cs ih =>
    simp only [List.map_cons, List.contains_cons, ih]
    congr 1
    by_cases hc : c = '*'
    · subst hc
      rfl
    · have h2 : lowerC c ≠ '*' := fun h => hc ((lowerC_eq_star c).mp h)
      rw [beq_eq_false_iff_ne.mpr (fun h => hc h.symm),
        beq_eq_false_iff_ne.mpr (fun h => h2 h.symm)]

theorem allQ_lower (l : List Char) :
    l.all (fun c => c == '?') = (l.map lowerC).all (fun c => c == '?') := by
  induction l with
  | nil => rfl
  | cons c cs ih =>
    simp only [List.map_cons, List.all_cons, ih]
    congr 1
    by_cases hc : c = '?'
    · subst hc
      rfl
    · have h2 : lowerC c ≠ '?' := fun h => hc ((lowerC_eq_q c).mp h)
      rw [beq_eq_false_iff_ne.mpr hc, beq_eq_false_iff_ne.mpr h2]

theorem minLen_lower (l : List Char) :
    (l.filter (fun c => c != '*')).length = ((l.map lowerC).filter (fun c => c != '*')).length := by
  induction l with
  | nil => rfl
  | cons c cs ih =>
    simp only [List.map_cons]
    by_cases hc : c = '*'
    · subst hc
      simp only [List.filter_cons]
      rw [show (lowerC '*') = '*' from rfl]
      simpa using ih
    · have h2 : lowerC c ≠ '*' := fun h => hc ((lowerC_eq_star c).mp h)
      simp only [List.filter_cons]
      rw [show (c != '*') = true from by simpa using hc,
        show (lowerC c != '*') = true from by simpa using h2]
      simpa using ih

/-! ## C5: matching is case-insensitive in the pattern -/

/-- C5: two patterns with the same lowering (i.e. differing only in letter
case) produce identical results for all four search operations. -/
theorem C5_case_insensitive (pyhash : String → Int) (ws : List String) (p1 p2 : String)
    (hlow : lowerS p1 = lowerS p2) :
    findExact pyhash ws p1 = findExact pyhash ws p2 ∧
    countExact pyhash ws p1 = countExact pyhash ws p2 ∧
    findPart pyhash ws p1 = findPart pyhash ws p2 ∧
    countPart pyhash ws p1 = countPart pyhash ws p2 := by
  have hdata : p1.data.map lowerC = p2.data.map lowerC := congrArg String.data hlow
  have hlen : p1.length = p2.length := by
    have h := congrArg String.length hlow
    rwa [lowerS_length, lowerS_length] at h
  have hempty : (p1 = "") ↔ (p2 = "") := by
    constructor
    · intro h
      subst h
      exact String.ext (List.map_eq_nil_iff.mp hdata.symm)
    · intro h
      subst h
      exact String.ext (List.map_eq_nil_iff.mp hdata)
  have hskip : shouldSkipPattern pyhash ws p1 = shouldSkipPattern pyhash ws p2 := by
    unfold shouldSkipPattern
    by_cases he : p1 = ""
    · rw [if_pos he, if_pos (hempty.mp he)]
    · rw [if_neg he, if_neg (fun h => he (hempty.mpr h)), hlow]
  have hstar : p1.data.contains '*' = p2.data.contains '*' := by
    rw [contains_star_lower p1.data, contains_star_lower p2.data, hdata]
  have hminlen : minLenOf p1 = minLenOf p2 := by
    unfold minLenOf
    rw [minLen_lower p1.data, minLen_lower p2.data, hdata]
  have hallq : allQ p1 = allQ p2 := by
    unfold allQ
    rw [allQ_lower p1.data, allQ_lower p2.data, hdata]
  have hexact : exactIndicesViaPosIndex ws p1 = exactIndicesViaPosIndex ws p2 := by
    unfold exactIndicesViaPosIndex
    rw [hlen, hlow]
  have hwf : (fun i => wildFull p1 (ws.getD i "")) = (fun i => wildFull p2 (ws.getD i "")) := by
    funext i
    unfold wildFull
    rw [hlow]
  have hwsb : (fun i => wildSub p1 (ws.getD i "")) = (fun i => wildSub p2 (ws.getD i "")) := by
    funext i
    unfold wildSub
    rw [hlow]
  refine ⟨?_, ?_, ?_, ?_⟩
  · unfold findExact
    rw [hskip, hstar, hminlen, hexact, hwf]
  · unfold countExact
    rw [hskip, hstar, hminlen, hexact, hwf]
  · unfold findPart
    rw [hskip, hstar, hallq, hminlen, hlen, hwsb]
  · unfold countPart
    rw [hskip, hstar, hallq, hminlen, hlen, hwsb]

/-- Witness for C5: `A*B` and `a*b` give the same results. -/
theorem C5_case_insensitive_witness :
    lowerS "A*B" = lowerS "a*b" ∧
      findExact hashZero ["ab", "AxB"] "A*B" = findExact hashZero ["ab", "AxB"] "a*b" :=
  ⟨by decide, (C5_case_insensitive hashZero ["ab", "AxB"] "A*B" "a*b" (by decide)).1⟩

end WordServer
